import Mathlib

set_option maxRecDepth 100000

/-!
Verification development for the schema auto-mapping subsystem of the
auto-insight-platform repository (`src/utils/column_mapper.py`).

The Python code is shallowly embedded: pandas dataframes become explicit
column lists, Python dicts become association lists with update-or-append
assignment, float scores become exact fractions (`Frac`, an integer
numerator over a positive natural denominator, compared by cross
multiplication), and operations that can fault (min/max/mean of an empty
sequence) return `Except`.
-/

namespace AutoInsight

/-- Exact fraction with a positive denominator.  Models the Python float
scores and ratios of `column_mapper.py`; all arithmetic is exact and
kernel-computable. -/
structure Frac where
  num : ℤ
  den : ℕ+
  deriving DecidableEq, Repr

namespace Frac

instance (n : ℕ) : OfNat Frac n := ⟨⟨(n : ℤ), 1⟩⟩

/-- Addition of fractions (no normalisation). -/
def add (a b : Frac) : Frac :=
  ⟨a.num * ((b.den : ℕ) : ℤ) + b.num * ((a.den : ℕ) : ℤ), a.den * b.den⟩

/-- Multiplication of fractions (no normalisation). -/
def mul (a b : Frac) : Frac :=
  ⟨a.num * b.num, a.den * b.den⟩

/-- Division of a fraction by a positive natural number. -/
def divP (a : Frac) (n : ℕ+) : Frac :=
  ⟨a.num, a.den * n⟩

/-- Order on fractions by cross multiplication (denominators positive). -/
def le (a b : Frac) : Prop :=
  a.num * ((b.den : ℕ) : ℤ) ≤ b.num * ((a.den : ℕ) : ℤ)

instance (a b : Frac) : Decidable (le a b) :=
  inferInstanceAs (Decidable (_ ≤ _))

/-- Interpretation into the rationals. -/
def toRat (a : Frac) : ℚ :=
  (a.num : ℚ) / ((a.den : ℕ) : ℚ)

/-- Python `int()` truncation toward zero of a fraction. -/
def toIntTrunc (a : Frac) : ℤ :=
  Int.tdiv a.num ((a.den : ℕ) : ℤ)

/-- Round-half-even (Python `round`) of `n / d` to the nearest integer. -/
def rhe (n : ℤ) (d : ℕ+) : ℤ :=
  if 2 * Int.fmod n ((d : ℕ) : ℤ) < ((d : ℕ) : ℤ) then Int.fdiv n ((d : ℕ) : ℤ)
  else if ((d : ℕ) : ℤ) < 2 * Int.fmod n ((d : ℕ) : ℤ) then Int.fdiv n ((d : ℕ) : ℤ) + 1
  else if Int.fdiv n ((d : ℕ) : ℤ) % 2 = 0 then Int.fdiv n ((d : ℕ) : ℤ)
  else Int.fdiv n ((d : ℕ) : ℤ) + 1

/-- Python `round(x, 1)`: round to one decimal digit, ties to even. -/
def round1 (a : Frac) : Frac :=
  ⟨rhe (a.num * 10) a.den, 10⟩

/-- Sum of a list of fractions. -/
def sum (l : List Frac) : Frac :=
  l.foldl add ⟨0, 1⟩

end Frac

/-- Python dict read: first binding of the key in the association list.
Keys stay unique because writes go through `dset`. -/
def dget {α : Type} : List (String × α) → String → Option α
  | [], _ => none
  | (k, v) :: rest, k' => if k' = k then some v else dget rest k'

/-- Python dict assignment `d[k] = v`: update in place if the key is
present, append otherwise. -/
def dset {α : Type} : List (String × α) → String → α → List (String × α)
  | [], k, v => [(k, v)]
  | (k0, v0) :: rest, k, v =>
      if k = k0 then (k, v) :: rest else (k0, v0) :: dset rest k v

/-! ### Name normalisation and string similarity -/

/-- `ColumnMapper.normalize_column_name`: lower-case and strip spaces,
underscores and hyphens. -/
def normalize_column_name (s : String) : String :=
  String.mk ((s.data.map Char.toLower).filter
    (fun c => !(c == ' ' || c == '_' || c == '-')))

/-- One row of the longest-common-subsequence dynamic program.
`prev` holds the previous row (entries for positions `1..`), `diag` the
previous row's entry one position left, `left` the current row's last
entry. -/
def lcsRow (a : Char) : List Char → List ℕ → ℕ → ℕ → List ℕ
  | [], _, _, _ => []
  | b :: bs, prev, diag, left =>
      let up := prev.headD 0
      let cur := if a == b then diag + 1 else max left up
      cur :: lcsRow a bs prev.tail up cur

/-- Length of a longest common subsequence, by row-wise dynamic
programming (kernel-computable in linear arithmetic steps). -/
def lcs (xs ys : List Char) : ℕ :=
  (xs.foldl (fun prev a => lcsRow a ys prev 0 0) (List.replicate ys.length 0)).getLastD 0

/-- Round-half-even of `(200 * m) / t` (Python `int(round(x))`), `t > 0`. -/
def roundRatio (m t : ℕ) : ℕ :=
  let q := (200 * m) / t
  let r := (200 * m) % t
  if 2 * r < t then q
  else if t < 2 * r then q + 1
  else if q % 2 = 0 then q else q + 1

/-- Modelled from the spec: the third-party `fuzzywuzzy.fuzz.ratio`
(absent from `src/`), described by the spec as "a string-similarity ratio
(edit-distance-based, 0–100 scale)": the normalised indel similarity
`round(200 * lcs / (len1 + len2))`, 100 for two empty strings. -/
def fuzz_ratio (x y : String) : ℕ :=
  if x.data.length + y.data.length = 0 then 100
  else roundRatio (lcs x.data y.data) (x.data.length + y.data.length)

/-- `ColumnMapper.calculate_similarity`: normalise both names, then the
similarity ratio. -/
def calculate_similarity (user_col standard_col : String) : ℕ :=
  fuzz_ratio (normalize_column_name user_col) (normalize_column_name standard_col)

/-! ### Schema catalogs -/

/-- One standard-field entry of a schema catalog (`names`/`type`/`required`
keys of the Python dicts). -/
structure FieldConfig where
  names : List String
  type : String
  required : Bool
  deriving DecidableEq, Repr

/-- A schema catalog: standard field name to configuration, in the
insertion order of the Python dict. -/
abbrev Catalog : Type := List (String × FieldConfig)

/-- `ColumnMapper.ECOMMERCE_COLUMNS`. -/
def ECOMMERCE_COLUMNS : Catalog :=
  [("customerid",
    { names := ["customerid", "customer_id", "customer", "cust_id", "user_id",
                "userid", "고객ID", "고객아이디", "회원ID"],
      type := "id", required := true }),
   ("invoicedate",
    { names := ["invoicedate", "invoice_date", "date", "order_date", "orderdate",
                "purchase_date", "주문일", "구매일", "날짜"],
      type := "date", required := true }),
   ("quantity",
    { names := ["quantity", "qty", "amount", "count", "수량", "개수"],
      type := "numeric", required := true }),
   ("unitprice",
    { names := ["unitprice", "unit_price", "price", "amount", "가격", "단가", "금액"],
      type := "numeric", required := true })]

/-- `ColumnMapper.REVIEW_COLUMNS`. -/
def REVIEW_COLUMNS : Catalog :=
  [("review_text",
    { names := ["review", "text", "comment", "review_text", "content",
                "리뷰", "내용", "댓글", "평가"],
      type := "text", required := true }),
   ("rating",
    { names := ["rating", "score", "star", "point", "평점", "별점", "점수"],
      type := "rating", required := false }),
   ("date",
    { names := ["date", "review_date", "created_at", "날짜", "작성일"],
      type := "date", required := false })]

/-- `ColumnMapper.SALES_COLUMNS`. -/
def SALES_COLUMNS : Catalog :=
  [("date",
    { names := ["date", "sales_date", "order_date", "invoicedate",
                "날짜", "판매일", "주문일"],
      type := "date", required := true }),
   ("product",
    { names := ["product", "product_name", "item", "description",
                "상품", "제품", "상품명"],
      type := "text", required := true }),
   ("quantity",
    { names := ["quantity", "qty", "amount", "수량", "개수"],
      type := "numeric", required := true }),
   ("price",
    { names := ["price", "unitprice", "unit_price", "amount", "가격", "단가"],
      type := "numeric", required := true })]

/-- `ColumnMapper.AVAILABLE_DATA_TYPES`. -/
def AVAILABLE_DATA_TYPES : List String := ["ecommerce", "review", "sales"]

/-- `ColumnMapper.__init__`: select the catalog for a domain string, or
fail fast with a `ValueError` whose message lists the valid domains.  The
Python exception is embedded as the `Except.error` branch. -/
def column_mapper_init (data_type : String) : Except String Catalog :=
  if data_type = "ecommerce" then .ok ECOMMERCE_COLUMNS
  else if data_type = "review" then .ok REVIEW_COLUMNS
  else if data_type = "sales" then .ok SALES_COLUMNS
  else .error ("Unknown data type: \x27" ++ data_type ++ "\x27. Available types: "
    ++ String.intercalate ", " AVAILABLE_DATA_TYPES)

/-! ### Name-only matching -/

/-- `ColumnMapper.find_best_match`: scan every alias of every standard
field, keep the strictly best similarity, and gate the result at the
minimum threshold 50. -/
def find_best_match (catalog : Catalog) (user_col : String) : Option String × ℕ :=
  let best := catalog.foldl
    (fun (st : Option String × ℕ) p =>
      p.2.names.foldl
        (fun st al =>
          let score := calculate_similarity user_col al
          if st.2 < score then (some p.1, score) else st)
        st)
    (none, 0)
  if 50 ≤ best.2 then best else (none, 0)

/-- The highest similarity any alias of any field of the catalog reaches
against a user column name (the spec's "single highest ... across the
whole catalog"). -/
def highest_alias_score (catalog : Catalog) (user_col : String) : ℕ :=
  catalog.foldl
    (fun acc p => p.2.names.foldl
      (fun a al => max a (calculate_similarity user_col al)) acc)
    0

instance {ε α : Type} [DecidableEq ε] [DecidableEq α] : DecidableEq (Except ε α)
  | .error a, .error b =>
      if h : a = b then .isTrue (by rw [h]) else .isFalse (by simp [h])
  | .error _, .ok _ => .isFalse (by simp)
  | .ok _, .error _ => .isFalse (by simp)
  | .ok a, .ok b =>
      if h : a = b then .isTrue (by rw [h]) else .isFalse (by simp [h])

/-! ### Dataframes and column profiles -/

/-- A raw cell value: a number or a string. -/
inductive CellVal : Type
  | num (q : Frac)
  | str (s : String)
  deriving DecidableEq, Repr

/-- A dataframe column: its pandas dtype string and its cells
(`none` is a null/NaN cell). -/
structure Column where
  dtype : String
  cells : List (Option CellVal)
  deriving DecidableEq, Repr

/-- A pandas dataframe: row count, column names in order, and the column
bound to each name. -/
structure DataFrame where
  nrows : ℕ
  cols : List String
  data : String → Column

/-- Modelled from the spec: `pd.api.types.is_numeric_dtype` (pandas,
absent from `src/`) — recognises the numeric dtypes. -/
def is_numeric_dtype (s : String) : Bool :=
  s == "int64" || s == "float64" || s == "int32" || s == "float32"

/-- The non-null cells of a column (`dropna`). -/
def nonNullCells (c : Column) : List CellVal :=
  c.cells.filterMap id

/-- The numeric values among a column's cells. -/
def numsOf (c : Column) : List Frac :=
  c.cells.filterMap (fun o => match o with
    | some (.num q) => some q
    | _ => none)

/-- `Series.nunique()`: distinct non-null values. -/
def nunique (c : Column) : ℕ :=
  (nonNullCells c).dedup.length

/-- `Series.isna().sum()`: number of null cells. -/
def nmissing (c : Column) : ℕ :=
  c.cells.countP (fun o => o.isNone)

/-- `Series.min()` over non-null values; a fault (pandas NaN) on an empty
sequence, which the profiler must never reach. -/
def pmin : List Frac → Except String Frac
  | [] => .error "min of empty column"
  | x :: xs => .ok (xs.foldl (fun a b => if Frac.le a b then a else b) x)

/-- `Series.max()` over non-null values; fault on empty. -/
def pmax : List Frac → Except String Frac
  | [] => .error "max of empty column"
  | x :: xs => .ok (xs.foldl (fun a b => if Frac.le b a then a else b) x)

/-- `Series.mean()` over non-null values; fault on empty. -/
def pmean : List Frac → Except String Frac
  | [] => .error "mean of empty column"
  | x :: xs => .ok (Frac.divP (Frac.sum (x :: xs)) ⟨(x :: xs).length, Nat.succ_pos _⟩)

/-- Split a character list at `-` separators. -/
def splitDash : List Char → List (List Char)
  | [] => [[]]
  | c :: cs =>
      let r := splitDash cs
      if c == '-' then [] :: r
      else
        match r with
        | [] => [[c]]
        | g :: gs => (c :: g) :: gs

/-- Modelled from the spec: `pd.to_datetime(value, errors=coerce)`
parseability (pandas, absent from `src/`) — the spec's "generic
date-parse", here for ISO `YYYY-MM-DD` calendar dates. -/
def is_date_cell : CellVal → Bool
  | .num _ => false
  | .str s =>
      match splitDash s.data with
      | [y, m, d] =>
          y.length == 4 && y.all Char.isDigit &&
          decide (1 ≤ m.length) && decide (m.length ≤ 2) && m.all Char.isDigit &&
          decide (1 ≤ d.length) && decide (d.length ≤ 2) && d.all Char.isDigit &&
          (let mv : ℕ := m.foldl (fun a c => a * 10 + (c.toNat - 48)) 0
           let dv : ℕ := d.foldl (fun a c => a * 10 + (c.toNat - 48)) 0
           decide (1 ≤ mv) && decide (mv ≤ 12) && decide (1 ≤ dv) && decide (dv ≤ 31))
      | _ => false

/-- `astype(str)` of one cell. -/
def cell_str : CellVal → String
  | .str s => s
  | .num q => toString q.num

/-- Mean string length of a non-empty sample (`astype(str).str.len().mean()`). -/
def mean_len (c : CellVal) (cs : List CellVal) : Frac :=
  Frac.divP
    (Frac.sum ((c :: cs).map (fun v => ⟨((cell_str v).length : ℤ), 1⟩)))
    ⟨(c :: cs).length, Nat.succ_pos _⟩

/-- The column profile produced by `ColumnMapper.analyze_column_data`. -/
structure Profile where
  dtype : String
  unique_ratio : Frac
  missing_ratio : Frac
  is_date : Bool
  is_numeric : Bool
  is_id : Bool
  numeric_range : Option (Frac × Frac × Frac)
  avg_length : Option Frac
  deriving DecidableEq, Repr

/-- The initial profile dict of `analyze_column_data` (exact ratios,
guarded by `total_rows > 0` exactly as in the source, all flags off). -/
def analyze_base (df : DataFrame) (col_name : String) : Profile :=
  { dtype := (df.data col_name).dtype
    unique_ratio :=
      if h : 0 < df.nrows
      then ⟨(nunique (df.data col_name) : ℤ), ⟨df.nrows, h⟩⟩ else 0
    missing_ratio :=
      if h : 0 < df.nrows
      then ⟨(nmissing (df.data col_name) : ℤ), ⟨df.nrows, h⟩⟩ else 0
    is_date := false
    is_numeric := false
    is_id := false
    numeric_range := none
    avg_length := none }

/-- The numeric block of `analyze_column_data`: on a numeric dtype set
`is_numeric`, and unless the column is all-null compute
`numeric_range = (min, max, mean)`; min/max/mean of an empty sequence is
the fault case. -/
def analyze_numeric_step (col_data : Column) (base : Profile) : Except String Profile :=
  if is_numeric_dtype col_data.dtype then
    if (nonNullCells col_data).isEmpty then .ok { base with is_numeric := true }
    else
      match pmin (numsOf col_data), pmax (numsOf col_data), pmean (numsOf col_data) with
      | .ok mn, .ok mx, .ok me =>
          .ok { base with is_numeric := true, numeric_range := some (mn, mx, me) }
      | .error e, _, _ => .error e
      | .ok _, .error e, _ => .error e
      | .ok _, .ok _, .error e => .error e
  else .ok base

/-- The date/text block of `analyze_column_data`: on non-numeric columns,
sample the first 10 non-null values, set `is_date` when at least 70%
parse, and record the sample's mean string length. -/
def analyze_date_text_step (col_data : Column) (r1 : Profile) : Profile :=
  if r1.is_numeric then r1
  else
    match (nonNullCells col_data).take 10 with
    | [] => r1
    | c :: cs =>
        let valid := ((c :: cs).filter is_date_cell).length
        let r' :=
          if Frac.le ⟨7, 10⟩ ⟨(valid : ℤ), ⟨(c :: cs).length, Nat.succ_pos _⟩⟩
          then { r1 with is_date := true } else r1
        { r' with avg_length := some (mean_len c cs) }

/-- The ID block of `analyze_column_data`: `is_id` when the unique ratio
reaches 0.9. -/
def analyze_id_step (r2 : Profile) : Profile :=
  if Frac.le ⟨9, 10⟩ r2.unique_ratio then { r2 with is_id := true } else r2

/-- `ColumnMapper.analyze_column_data`: profile one column by the
source's three sequential blocks; a fault in the numeric block
propagates. -/
def analyze_column_data (df : DataFrame) (col_name : String) : Except String Profile :=
  match analyze_numeric_step (df.data col_name) (analyze_base df col_name) with
  | .error e => .error e
  | .ok r1 => .ok (analyze_id_step (analyze_date_text_step (df.data col_name) r1))

/-! ### Type scorer -/

/-- `ColumnMapper.infer_column_type`: score vector from a profile.  The
`analysis` argument of the source is optional with the profile as
default; every caller relevant here passes it, so it is required in the
embedding.  The source's inner `min_val is not None` test is vacuous (the
tuple components are floats) and is folded away.  The dataframe is only
read by the `avg_length` fallback. -/
def infer_column_type (df : DataFrame) (col_name : String) (analysis : Profile) :
    List (String × ℤ) :=
  let scores : List (String × ℤ) := []
  let scores :=
    if analysis.is_date then
      dset (dset (dset (dset (dset scores "date" 90)
        "id" (if analysis.is_id then 30 else 0)) "numeric" 0) "rating" 0) "text" 0
    else scores
  if analysis.is_numeric then
    let scores := dset scores "numeric" 80
    let scores := dset scores "rating"
      (match analysis.numeric_range with
       | some (min_val, max_val, _) =>
           if Frac.le 0 min_val ∧ Frac.le max_val 10 then 70 else 0
       | none => 0)
    let scores := dset scores "id"
      (if analysis.is_id then 90
       else Frac.toIntTrunc (Frac.mul analysis.unique_ratio 50))
    let scores := dset scores "text" 0
    dset scores "date" 0
  else
    let scores := dset scores "numeric" 0
    let scores := dset scores "rating" 0
    let scores := dset scores "id"
      (if analysis.is_id then 80
       else Frac.toIntTrunc (Frac.mul analysis.unique_ratio 30))
    let scores :=
      match analysis.avg_length with
      | some avg =>
          dset scores "text"
            (if Frac.le 50 avg then 80 else if Frac.le 20 avg then 60 else 30)
      | none =>
          match nonNullCells (df.data col_name) with
          | [] => scores
          | c :: cs =>
              let avg := mean_len c cs
              dset scores "text"
                (if Frac.le 50 avg then 80 else if Frac.le 20 avg then 60 else 30)
    dset scores "date" 0

/-! ### Mapping results -/

/-- One value of a mapping-result dict.  The Python dicts carry
`name_score`/`data_score` only for hybrid entries and `alternatives` only
on conflicts; optional keys become `Option` fields. -/
structure MapEntry where
  user_column : String
  confidence : Frac
  method : String
  name_score : Option ℕ
  data_score : Option ℤ
  alternatives : Option (List String)
  deriving DecidableEq, Repr

/-- A mapping result: standard field name to entry, in dict insertion
order. -/
abbrev Mapping : Type := List (String × MapEntry)

/-- Insert `x` into a list sorted by `key` descending, after every
element of key `≥ key x` (the stable position Python's `sorted` with
`reverse=True` gives it). -/
def insertDesc {α : Type} (key : α → Frac) (x : α) : List α → List α
  | [] => [x]
  | y :: ys => if Frac.le (key x) (key y) then y :: insertDesc key x ys else x :: y :: ys

/-- Stable sort by `key` descending (`sorted(..., key=..., reverse=True)`). -/
def sortDesc {α : Type} (key : α → Frac) (l : List α) : List α :=
  l.foldl (fun acc x => insertDesc key x acc) []

/-! ### Name-only auto mapping -/

/-- Append a candidate to a standard field's list, creating the key on
first use (`candidates.setdefault`-style block of `auto_map_columns`). -/
def dappend {α : Type} : List (String × List α) → String → α → List (String × List α)
  | [], k, v => [(k, [v])]
  | (k0, vs) :: rest, k, v =>
      if k = k0 then (k0, vs ++ [v]) :: rest else (k0, vs) :: dappend rest k v

/-- Stage 1 of `ColumnMapper.auto_map_columns`: route every user column
to its best-matching standard field. -/
def collectCandidates (catalog : Catalog) : List String →
    List (String × List (String × ℕ)) → List (String × List (String × ℕ))
  | [], acc => acc
  | u :: us, acc =>
      match find_best_match catalog u with
      | (some std, score) => collectCandidates catalog us (dappend acc std (u, score))
      | (none, _) => collectCandidates catalog us acc

/-- Stage 2 of `ColumnMapper.auto_map_columns`: resolve one field's
candidate list (singleton: direct; conflict: sort by score descending,
best wins, rest become `alternatives`).  The empty case cannot arise. -/
def resolveAuto (cands : List (String × ℕ)) : MapEntry :=
  match cands with
  | [] => ⟨"", 0, "fuzzy", none, none, none⟩
  | [(u, s)] => ⟨u, ⟨(s : ℤ), 1⟩, "fuzzy", none, none, none⟩
  | c1 :: c2 :: rest =>
      match sortDesc (fun v => ⟨(v.2 : ℤ), 1⟩) (c1 :: c2 :: rest) with
      | [] => ⟨"", 0, "fuzzy", none, none, none⟩
      | b :: others =>
          ⟨b.1, ⟨(b.2 : ℤ), 1⟩, "fuzzy", none, none, some (others.map Prod.fst)⟩

/-- `ColumnMapper.auto_map_columns`: name-only mapping with per-field
conflict resolution. -/
def auto_map_columns (catalog : Catalog) (df : DataFrame) : Mapping :=
  (collectCandidates catalog df.cols []).map (fun p => (p.1, resolveAuto p.2))

/-! ### Validation and application -/

/-- `ColumnMapper.get_missing_columns`: required standard fields absent
from a mapping. -/
def get_missing_columns (catalog : Catalog) (mapping : Mapping) : List String :=
  catalog.filterMap (fun p =>
    if p.2.required = true ∧ ¬ p.1 ∈ mapping.map Prod.fst then some p.1 else none)

/-- The Korean validation message naming one unmapped required field. -/
def missing_message (col : String) : String :=
  "필수 컬럼 \x27" ++ col ++ "\x27이(가) 매핑되지 않았습니다."

/-- `ColumnMapper.validate_mapping`: a structured (flag, messages)
result — missing required fields never raise. -/
def validate_mapping (catalog : Catalog) (mapping : Mapping) : Bool × List String :=
  match get_missing_columns catalog mapping with
  | [] => (true, [])
  | missing => (false, missing.map missing_message)

/-- `ColumnMapper.apply_mapping`: build `rename_dict` from selected user
columns, select those columns and rename them to their standard fields.
The embedding is pure, so the source dataframe is untouched by
construction. -/
def apply_mapping (df : DataFrame) (mapping : Mapping) : DataFrame :=
  let rename_dict :=
    mapping.foldl (fun d p => dset d p.2.user_column p.1) []
  { nrows := df.nrows
    cols := rename_dict.map (fun p => p.2)
    data := fun n =>
      match rename_dict.find? (fun p => p.2 == n) with
      | some p => df.data p.1
      | none => { dtype := "object", cells := [] } }

/-! ### Hybrid mapping -/

/-- A hybrid candidate: user column, combined score, name score, data
score. -/
abbrev Cand : Type := String × Frac × ℕ × ℤ

/-- The score vector cached for one user column by stage 1 of
`hybrid_map_columns`; an analysis failure yields the empty dict. -/
def column_type_scores (df : DataFrame) (u : String) : List (String × ℤ) :=
  match analyze_column_data df u with
  | .ok a => infer_column_type df u a
  | .error _ => []

/-- The best name-similarity of a user column against a field's aliases
(stage 2 inner loop). -/
def name_score_for (cfg : FieldConfig) (u : String) : ℕ :=
  cfg.names.foldl (fun m al => max m (calculate_similarity u al)) 0

/-- Stage 2 of `hybrid_map_columns` for one standard field: combined
score `name*name_weight + data*data_weight` per user column, kept when it
clears the threshold 50. -/
def candidates_for (df : DataFrame) (cfg : FieldConfig)
    (name_weight data_weight : Frac) : List Cand :=
  df.cols.filterMap (fun u =>
    let name_score := name_score_for cfg u
    let data_score := (dget (column_type_scores df u) cfg.type).getD 0
    let combined := Frac.add (Frac.mul ⟨(name_score : ℤ), 1⟩ name_weight)
      (Frac.mul ⟨data_score, 1⟩ data_weight)
    if Frac.le 50 combined then some (u, combined, name_score, data_score) else none)

/-- Stage 3 of `hybrid_map_columns` for one standard field: skip empty
candidate lists, resolve conflicts by combined score, round the winning
confidence to one decimal. -/
def resolveHybrid (cands : List Cand) : Option MapEntry :=
  match cands with
  | [] => none
  | [(u, c, n, d)] => some ⟨u, Frac.round1 c, "hybrid", some n, some d, none⟩
  | c1 :: c2 :: rest =>
      match sortDesc (fun x => x.2.1) (c1 :: c2 :: rest) with
      | [] => none
      | b :: others =>
          some ⟨b.1, Frac.round1 b.2.1, "hybrid", some b.2.2.1, some b.2.2.2,
            some (others.map (fun x => x.1))⟩

/-- `ColumnMapper.hybrid_map_columns` with its default weights 0.6/0.4:
per-field candidate collection followed by per-field conflict
resolution. -/
def hybrid_map_columns (catalog : Catalog) (df : DataFrame)
    (name_weight : Frac := ⟨6, 10⟩) (data_weight : Frac := ⟨4, 10⟩) : Mapping :=
  (catalog.map (fun p => (p.1, candidates_for df p.2 name_weight data_weight))).filterMap
    (fun q => (resolveHybrid q.2).map (fun e => (q.1, e)))

/-! ### Column well-formedness -/

/-- A cell a numeric-dtype column may hold: null or a number. -/
def cell_numeric_ok : Option CellVal → Bool
  | none => true
  | some (.num _) => true
  | some (.str _) => false

/-- Pandas well-formedness of a column: the cells of a numeric dtype are
numbers or nulls. -/
def well_formed_col (c : Column) : Prop :=
  is_numeric_dtype c.dtype = true → ∀ o ∈ c.cells, cell_numeric_ok o = true

instance (c : Column) : Decidable (well_formed_col c) := by
  unfold well_formed_col
  infer_instance

/-! ### Concrete test data -/

/-- An all-distinct column of ten ISO date strings (the repository's own
`test_analyze_date_column` data). -/
def order_date_column : Column :=
  { dtype := "object",
    cells := [some (.str "2024-01-01"), some (.str "2024-01-02"),
              some (.str "2024-01-03"), some (.str "2024-01-04"),
              some (.str "2024-01-05"), some (.str "2024-01-06"),
              some (.str "2024-01-07"), some (.str "2024-01-08"),
              some (.str "2024-01-09"), some (.str "2024-01-10")] }

/-- A one-column dataframe holding `order_date_column`. -/
def order_date_df : DataFrame :=
  { nrows := 10, cols := ["OrderDate"],
    data := fun n => if n = "OrderDate" then order_date_column
      else { dtype := "object", cells := [] } }

/-- The profile `analyze_column_data` computes for `order_date_column`:
ten distinct parseable dates, so `is_date` and `is_id` both hold. -/
def order_date_profile : Profile :=
  { dtype := "object", unique_ratio := ⟨10, 10⟩, missing_ratio := ⟨0, 10⟩,
    is_date := true, is_numeric := false, is_id := true,
    numeric_range := none, avg_length := some ⟨100, 10⟩ }

/-- An empty dataframe (fallback argument for scoring a bare profile). -/
def empty_df : DataFrame :=
  { nrows := 0, cols := [], data := fun _ => { dtype := "object", cells := [] } }

/-- A non-numeric, non-date, fully unique profile (e.g. ten distinct
short order codes). -/
def c3_profile : Profile :=
  { dtype := "object", unique_ratio := ⟨1, 1⟩, missing_ratio := 0,
    is_date := false, is_numeric := false, is_id := true,
    numeric_range := none, avg_length := some ⟨10, 1⟩ }

/-- A numeric column named `amount` — `amount` is an alias of both the
`quantity` and the `unitprice` e-commerce fields. -/
def amount_df : DataFrame :=
  { nrows := 3, cols := ["amount"],
    data := fun n =>
      if n = "amount" then
        { dtype := "int64",
          cells := [some (.num ⟨1, 1⟩), some (.num ⟨2, 1⟩), some (.num ⟨3, 1⟩)] }
      else { dtype := "object", cells := [] } }

/-- Two numeric price-like columns that both match the `unitprice`
field (the spec's conflict-resolution scenario). -/
def price_df : DataFrame :=
  { nrows := 3, cols := ["price", "unit_price"],
    data := fun n =>
      if n = "price" then
        { dtype := "int64",
          cells := [some (.num ⟨100, 1⟩), some (.num ⟨200, 1⟩), some (.num ⟨150, 1⟩)] }
      else if n = "unit_price" then
        { dtype := "int64",
          cells := [some (.num ⟨10, 1⟩), some (.num ⟨20, 1⟩), some (.num ⟨15, 1⟩)] }
      else { dtype := "object", cells := [] } }

/-- The `unitprice` entry of the e-commerce catalog. -/
def cfg_unitprice : FieldConfig :=
  { names := ["unitprice", "unit_price", "price", "amount", "가격", "단가", "금액"],
    type := "numeric", required := true }

/-- The `customerid` entry of the e-commerce catalog. -/
def cfg_customerid : FieldConfig :=
  { names := ["customerid", "customer_id", "customer", "cust_id", "user_id",
              "userid", "고객ID", "고객아이디", "회원ID"],
    type := "id", required := true }

/-- A two-column dataframe for exercising `apply_mapping`. -/
def c7_df : DataFrame :=
  { nrows := 2, cols := ["a", "b"],
    data := fun n =>
      if n = "a" then
        { dtype := "int64", cells := [some (.num ⟨1, 1⟩), some (.num ⟨2, 1⟩)] }
      else if n = "b" then
        { dtype := "int64", cells := [some (.num ⟨3, 1⟩), some (.num ⟨4, 1⟩)] }
      else { dtype := "object", cells := [] } }

/-- A mapping entry selecting source column `a`. -/
def c7_entry_a : MapEntry := ⟨"a", ⟨90, 1⟩, "hybrid", none, none, none⟩

/-- A mapping entry selecting source column `b`. -/
def c7_entry_b : MapEntry := ⟨"b", ⟨80, 1⟩, "hybrid", none, none, none⟩

/-- A mapping in which two standard fields select the same user column. -/
def c7_dup_mapping : Mapping := [("f1", c7_entry_a), ("f2", c7_entry_a)]

/-- A mapping with pairwise distinct selected user columns. -/
def c7_good_mapping : Mapping := [("f1", c7_entry_a), ("f2", c7_entry_b)]

/-- A numeric-dtype column whose cells are all null. -/
def allnull_df : DataFrame :=
  { nrows := 3, cols := ["x"],
    data := fun n =>
      if n = "x" then { dtype := "float64", cells := [none, none, none] }
      else { dtype := "object", cells := [] } }

/-- A dataframe whose single column name matches `customerid` exactly
after normalisation. -/
def customer_df : DataFrame :=
  { nrows := 3, cols := ["Customer_ID"],
    data := fun _ =>
      { dtype := "int64",
        cells := [some (.num ⟨1, 1⟩), some (.num ⟨2, 1⟩), some (.num ⟨3, 1⟩)] } }

/-- The mapping entry `auto_map_columns` produces for `customer_df`. -/
def c10_entry : MapEntry := ⟨"Customer_ID", ⟨100, 1⟩, "fuzzy", none, none, none⟩

/-! ### Order and transfer lemmas for fractions -/

theorem Frac.den_cast_pos (a : Frac) : (0 : ℚ) < ((a.den : ℕ) : ℚ) := by
  exact_mod_cast a.den.pos

theorem Frac.le_iff_toRat (a b : Frac) : a.le b ↔ a.toRat ≤ b.toRat := by
  unfold Frac.le Frac.toRat
  rw [div_le_div_iff₀ (Frac.den_cast_pos a) (Frac.den_cast_pos b)]
  constructor
  · intro h; exact_mod_cast h
  · intro h; exact_mod_cast h

theorem Frac.leRefl (a : Frac) : a.le a := by
  rw [Frac.le_iff_toRat]

theorem Frac.leTrans {a b c : Frac} (h1 : a.le b) (h2 : b.le c) : a.le c := by
  rw [Frac.le_iff_toRat] at *
  exact h1.trans h2

theorem Frac.leTotal (a b : Frac) : a.le b ∨ b.le a := by
  rw [Frac.le_iff_toRat, Frac.le_iff_toRat]
  exact le_total _ _

/-! ### Dict lemmas -/

theorem dget_dset {α : Type} (d : List (String × α)) (k k' : String) (v : α) :
    dget (dset d k v) k' = if k' = k then some v else dget d k' := by
  induction d with
  | nil => simp [dget, dset]
  | cons hd tl ih =>
      obtain ⟨k0, v0⟩ := hd
      by_cases h1 : k = k0
      · subst h1
        by_cases h2 : k' = k <;> simp [dget, dset, h2]
      · by_cases h2 : k' = k0
        · subst h2
          have : ¬ k' = k := fun h => h1 h.symm
          simp [dget, dset, h1, this]
        · simp [dget, dset, h1, h2, ih]

theorem dget_none_of_not_mem_keys {α : Type} {l : List (String × α)} {k : String}
    (h : k ∉ l.map Prod.fst) : dget l k = none := by
  induction l with
  | nil => rfl
  | cons p rest ih =>
      simp only [List.map_cons, List.mem_cons] at h
      push_neg at h
      simp [dget, h.1, ih h.2]

theorem dget_map_entry {α β : Type} (g : α → β) (l : List (String × α)) (k : String) :
    dget (l.map (fun p => (p.1, g p.2))) k = (dget l k).map g := by
  induction l with
  | nil => rfl
  | cons p rest ih =>
      by_cases h : k = p.1 <;> simp [dget, h, ih]

/-! ### Properties of the descending sort -/

theorem insertDesc_perm {α : Type} (key : α → Frac) (x : α) (l : List α) :
    (insertDesc key x l).Perm (x :: l) := by
  induction l with
  | nil => simp [insertDesc]
  | cons y ys ih =>
      unfold insertDesc
      by_cases h : Frac.le (key x) (key y)
      · simp only [h, if_pos]
        exact (ih.cons y).trans (List.Perm.swap x y ys)
      · simp [h]

theorem sortDesc_perm_aux {α : Type} (key : α → Frac) (l : List α) :
    ∀ acc : List α, (l.foldl (fun acc x => insertDesc key x acc) acc).Perm (acc ++ l) := by
  induction l with
  | nil => intro acc; simp
  | cons x xs ih =>
      intro acc
      have h1 := ih (insertDesc key x acc)
      have h2 : (insertDesc key x acc ++ xs).Perm ((x :: acc) ++ xs) :=
        (insertDesc_perm key x acc).append_right xs
      have h3 : ((x :: acc) ++ xs).Perm (acc ++ x :: xs) := by
        simpa using List.perm_middle.symm
      simpa using (h1.trans h2).trans h3

theorem sortDesc_perm {α : Type} (key : α → Frac) (l : List α) :
    (sortDesc key l).Perm l := by
  simpa using sortDesc_perm_aux key l []

theorem mem_insertDesc {α : Type} {key : α → Frac} {x a : α} {l : List α} :
    a ∈ insertDesc key x l ↔ a = x ∨ a ∈ l := by
  rw [(insertDesc_perm key x l).mem_iff]
  simp

theorem insertDesc_pairwise {α : Type} (key : α → Frac) (x : α) (l : List α)
    (h : l.Pairwise (fun a b => Frac.le (key b) (key a))) :
    (insertDesc key x l).Pairwise (fun a b => Frac.le (key b) (key a)) := by
  induction l with
  | nil => simp [insertDesc]
  | cons y ys ih =>
      rw [List.pairwise_cons] at h
      obtain ⟨hy, hys⟩ := h
      unfold insertDesc
      by_cases hle : Frac.le (key x) (key y)
      · simp only [hle, if_pos]
        rw [List.pairwise_cons]
        refine ⟨?_, ih hys⟩
        intro a ha
        rcases mem_insertDesc.mp ha with rfl | ha
        · exact hle
        · exact hy a ha
      · simp only [hle, if_neg, not_false_iff]
        rcases Frac.leTotal (key x) (key y) with h' | h'
        · exact absurd h' hle
        · rw [List.pairwise_cons]
          refine ⟨?_, List.pairwise_cons.mpr ⟨hy, hys⟩⟩
          intro a ha
          rcases ha with _ | ha
          · exact h'
          · exact Frac.leTrans (hy a (by assumption)) h'

theorem sortDesc_pairwise_aux {α : Type} (key : α → Frac) (l : List α) :
    ∀ acc : List α, acc.Pairwise (fun a b => Frac.le (key b) (key a)) →
      (l.foldl (fun acc x => insertDesc key x acc) acc).Pairwise
        (fun a b => Frac.le (key b) (key a)) := by
  induction l with
  | nil => intro acc h; simpa using h
  | cons x xs ih =>
      intro acc h
      exact ih (insertDesc key x acc) (insertDesc_pairwise key x acc h)

theorem sortDesc_pairwise {α : Type} (key : α → Frac) (l : List α) :
    (sortDesc key l).Pairwise (fun a b => Frac.le (key b) (key a)) :=
  sortDesc_pairwise_aux key l [] (List.Pairwise.nil)

/-- The head of the descending sort dominates every element of the
original list. -/
theorem sortDesc_head_max {α : Type} (key : α → Frac) (l : List α)
    {b : α} {others : List α} (heq : sortDesc key l = b :: others) :
    ∀ a ∈ l, Frac.le (key a) (key b) := by
  intro a ha
  have hperm := sortDesc_perm key l
  have hmem : a ∈ sortDesc key l := hperm.mem_iff.mpr ha
  rw [heq] at hmem
  rcases hmem with _ | hmem
  · exact Frac.leRefl _
  · have hp := sortDesc_pairwise key l
    rw [heq, List.pairwise_cons] at hp
    exact hp.1 a (by assumption)

/-! ### Exactness of rounding at one-decimal granularity -/

theorem Frac.rhe_mul (k : ℤ) (d : ℕ+) : Frac.rhe (k * ((d : ℕ) : ℤ)) d = k := by
  have hd0 : ((d : ℕ) : ℤ) ≠ 0 := by exact_mod_cast d.pos.ne'
  have hdpos : (0 : ℤ) < ((d : ℕ) : ℤ) := by exact_mod_cast d.pos
  unfold Frac.rhe
  rw [Int.mul_fdiv_cancel _ hd0, Int.mul_fmod_left]
  simp [hdpos]

/-- Rounding to one decimal is exact on values that already have one
decimal digit. -/
theorem Frac.round1_exact (a : Frac) (k : ℤ)
    (h : a.num * 10 = k * ((a.den : ℕ) : ℤ)) :
    (Frac.round1 a).toRat = a.toRat := by
  unfold Frac.round1
  rw [h, Frac.rhe_mul]
  unfold Frac.toRat
  have hq : (a.num : ℚ) * 10 = (k : ℚ) * ((a.den : ℕ) : ℚ) := by exact_mod_cast h
  have h10 : (0 : ℚ) < (((10 : ℕ+) : ℕ) : ℚ) := by norm_num
  rw [div_eq_div_iff h10.ne' (Frac.den_cast_pos a).ne']
  have : (((10 : ℕ+) : ℕ) : ℚ) = 10 := by norm_num
  rw [this]
  linarith [hq]

/-- The combined hybrid score at the default weights `0.6`/`0.4` has one
decimal digit, so its rounding is exact. -/
theorem Frac.round1_combine (n : ℕ) (d : ℤ) :
    (Frac.round1 (Frac.add (Frac.mul ⟨(n : ℤ), 1⟩ ⟨6, 10⟩)
      (Frac.mul ⟨d, 1⟩ ⟨4, 10⟩))).toRat =
    (Frac.add (Frac.mul ⟨(n : ℤ), 1⟩ ⟨6, 10⟩) (Frac.mul ⟨d, 1⟩ ⟨4, 10⟩)).toRat := by
  apply Frac.round1_exact _ ((n : ℤ) * 6 + d * 4)
  show ((n : ℤ) * 6 * ((((1 : ℕ+) * 10 : ℕ+) : ℕ) : ℤ)
      + d * 4 * ((((1 : ℕ+) * 10 : ℕ+) : ℕ) : ℤ)) * 10
    = ((n : ℤ) * 6 + d * 4) * (((((1 : ℕ+) * 10) * ((1 : ℕ+) * 10) : ℕ+) : ℕ) : ℤ)
  push_cast
  ring

/-! ### Access lemmas for the hybrid mapping -/

theorem hybrid_keys_sublist (catalog : Catalog) (df : DataFrame) (w1 w2 : Frac) :
    ((hybrid_map_columns catalog df w1 w2).map Prod.fst).Sublist
      (catalog.map Prod.fst) := by
  induction catalog with
  | nil => simp [hybrid_map_columns]
  | cons p rest ih =>
      unfold hybrid_map_columns at *
      rw [List.map_cons, List.filterMap_cons]
      cases hres : resolveHybrid (candidates_for df p.2 w1 w2) with
      | none => simpa using ih.cons p.1
      | some e => simpa using ih.cons₂ p.1

theorem dget_hybrid {catalog : Catalog} {std : String} {cfg : FieldConfig}
    (df : DataFrame) (w1 w2 : Frac) (hmem : (std, cfg) ∈ catalog)
    (hnd : (catalog.map Prod.fst).Nodup) :
    dget (hybrid_map_columns catalog df w1 w2) std
      = resolveHybrid (candidates_for df cfg w1 w2) := by
  induction catalog with
  | nil => cases hmem
  | cons p rest ih =>
      obtain ⟨k0, cfg0⟩ := p
      rw [List.map_cons, List.nodup_cons] at hnd
      obtain ⟨hk0, hnd'⟩ := hnd
      rcases List.mem_cons.mp hmem with heq | hmem'
      · obtain ⟨rfl, rfl⟩ := Prod.mk.injEq _ _ _ _ ▸ heq
        unfold hybrid_map_columns
        rw [List.map_cons, List.filterMap_cons]
        cases hres : resolveHybrid (candidates_for df cfg w1 w2) with
        | none =>
            apply dget_none_of_not_mem_keys
            intro hin
            exact hk0 ((hybrid_keys_sublist rest df w1 w2).subset hin)
        | some e => simp [dget]
      · have hne : std ≠ k0 := by
          intro h
          subst h
          exact hk0 (List.mem_map.mpr ⟨(std, cfg), hmem', rfl⟩)
        unfold hybrid_map_columns at *
        rw [List.map_cons, List.filterMap_cons]
        cases hres : resolveHybrid (candidates_for df cfg0 w1 w2) with
        | none => exact ih hmem' hnd'
        | some e =>
            simp only [dget, hne, if_neg, not_false_iff]
            exact ih hmem' hnd'

/-- Every hybrid candidate's combined score has the weighted-sum shape
and clears the threshold. -/
theorem mem_candidates_for {df : DataFrame} {cfg : FieldConfig} {w1 w2 : Frac}
    {x : Cand} (h : x ∈ candidates_for df cfg w1 w2) :
    x.2.1 = Frac.add (Frac.mul ⟨(x.2.2.1 : ℤ), 1⟩ w1) (Frac.mul ⟨x.2.2.2, 1⟩ w2)
      ∧ Frac.le 50 x.2.1 := by
  unfold candidates_for at h
  obtain ⟨u, _, hx⟩ := List.mem_filterMap.mp h
  by_cases hth : Frac.le 50
      (Frac.add (Frac.mul ⟨(name_score_for cfg u : ℤ), 1⟩ w1)
        (Frac.mul ⟨(dget (column_type_scores df u) cfg.type).getD 0, 1⟩ w2))
  · simp only [hth, if_pos] at hx
    obtain rfl := Option.some.injEq _ _ ▸ hx
    exact ⟨rfl, hth⟩
  · simp [hth] at hx

/-! ### Further helper lemmas -/

theorem Frac.toRat_ofNat (n : ℕ) : ((OfNat.ofNat n : Frac)).toRat = (n : ℚ) := by
  show ((n : ℤ) : ℚ) / (((1 : ℕ+) : ℕ) : ℚ) = (n : ℚ)
  norm_num

theorem Frac.natCast_le_iff (n : ℕ) (q : Frac) :
    Frac.le (OfNat.ofNat n) q ↔ (n : ℚ) ≤ q.toRat := by
  rw [Frac.le_iff_toRat, Frac.toRat_ofNat]

theorem Frac.le_natCast_iff (q : Frac) (n : ℕ) :
    Frac.le q (OfNat.ofNat n) ↔ q.toRat ≤ (n : ℚ) := by
  rw [Frac.le_iff_toRat, Frac.toRat_ofNat]

theorem Frac.nonneg_num {q : Frac} (h : Frac.le 0 q) : 0 ≤ q.num := by
  unfold Frac.le at h
  have h0 : ((0 : Frac)).num = 0 := rfl
  have h1 : ((((0 : Frac)).den : ℕ) : ℤ) = 1 := rfl
  rw [h0, h1] at h
  have hpos : (0 : ℤ) < ((q.den : ℕ) : ℤ) := by exact_mod_cast q.den.pos
  nlinarith

theorem Frac.toIntTrunc_mul_nat (q : Frac) (n : ℕ) (h : Frac.le 0 q) :
    Frac.toIntTrunc (Frac.mul q (OfNat.ofNat n)) = ⌊q.toRat * (n : ℚ)⌋ := by
  show Int.tdiv (q.num * (n : ℤ)) (((q.den * 1 : ℕ+) : ℕ) : ℤ) = ⌊q.toRat * (n : ℚ)⌋
  have hden : (((q.den * 1 : ℕ+) : ℕ) : ℤ) = ((q.den : ℕ) : ℤ) := by
    push_cast [PNat.mul_coe]
    ring
  rw [hden]
  have hcast : q.toRat * (n : ℚ)
      = ((q.num * (n : ℤ) : ℤ) : ℚ) / (((q.den : ℕ) : ℕ) : ℚ) := by
    unfold Frac.toRat
    push_cast
    ring
  rw [hcast, Rat.floor_intCast_div_natCast]
  have hnum : 0 ≤ q.num * (n : ℤ) :=
    mul_nonneg (Frac.nonneg_num h) (Int.natCast_nonneg n)
  have hden2 : (0 : ℤ) ≤ ((q.den : ℕ) : ℤ) := by positivity
  exact Int.tdiv_eq_ediv hnum hden2


theorem mem_of_dget {α : Type} {l : List (String × α)} {k : String} {v : α}
    (h : dget l k = some v) : (k, v) ∈ l := by
  induction l with
  | nil => cases h
  | cons p rest ih =>
      obtain ⟨k0, v0⟩ := p
      by_cases hk : k = k0
      · subst hk
        simp [dget] at h
        subst h
        exact List.mem_cons_self _ _
      · simp [dget, hk] at h
        exact List.mem_cons_of_mem _ (ih h)

theorem dget_dappend {α : Type} (acc : List (String × List α)) (k k' : String) (v : α) :
    dget (dappend acc k v) k' =
      if k' = k then some ((dget acc k).getD [] ++ [v]) else dget acc k' := by
  induction acc with
  | nil =>
      by_cases h : k' = k <;> simp [dget, dappend, h]
  | cons p rest ih =>
      obtain ⟨k0, vs⟩ := p
      by_cases h1 : k = k0
      · subst h1
        by_cases h2 : k' = k <;> simp [dget, dappend, h2]
      · have h1' : ¬ k = k0 := h1
        by_cases h2 : k' = k0
        · subst h2
          have : ¬ k' = k := fun h => h1 h.symm
          simp [dget, dappend, h1', this]
        · simp [dget, dappend, h1', h2, ih]

theorem dappend_values_ne_nil {α : Type} {acc : List (String × List α)} {k : String}
    {v : α} (h : ∀ p ∈ acc, p.2 ≠ []) :
    ∀ p ∈ dappend acc k v, p.2 ≠ [] := by
  induction acc with
  | nil =>
      intro p hp
      simp [dappend] at hp
      subst hp
      simp
  | cons q rest ih =>
      obtain ⟨k0, vs⟩ := q
      intro p hp
      by_cases h1 : k = k0
      · subst h1
        simp only [dappend, if_pos] at hp
        rcases List.mem_cons.mp hp with rfl | hp
        · simp
        · exact h p (List.mem_cons_of_mem _ hp)
      · simp only [dappend, h1, if_neg, not_false_iff] at hp
        rcases List.mem_cons.mp hp with rfl | hp
        · exact h _ (List.mem_cons_self _ _)
        · exact ih (fun q hq => h q (List.mem_cons_of_mem _ hq)) p hp

theorem collect_values_ne_nil (catalog : Catalog) (us : List String) :
    ∀ acc, (∀ p ∈ acc, p.2 ≠ []) →
      ∀ p ∈ collectCandidates catalog us acc, p.2 ≠ [] := by
  induction us with
  | nil => intro acc h; exact h
  | cons u0 rest ih =>
      intro acc h
      unfold collectCandidates
      cases hfb : find_best_match catalog u0 with
      | mk fst snd =>
          cases fst with
          | none => exact ih acc h
          | some f0 => exact ih _ (dappend_values_ne_nil h)

theorem collect_inv (catalog : Catalog) (us : List String) :
    ∀ acc,
      (∀ f vs u s, dget acc f = some vs → (u, s) ∈ vs →
        find_best_match catalog u = (some f, s)) →
      ∀ f vs u s, dget (collectCandidates catalog us acc) f = some vs → (u, s) ∈ vs →
        find_best_match catalog u = (some f, s) := by
  induction us with
  | nil => intro acc h; exact h
  | cons u0 rest ih =>
      intro acc h
      unfold collectCandidates
      cases hfb : find_best_match catalog u0 with
      | mk fst snd =>
          cases fst with
          | none => exact ih acc h
          | some f0 =>
              apply ih
              intro f vs u s hg hm
              rw [dget_dappend] at hg
              by_cases hf : f = f0
              · subst hf
                rw [if_pos rfl] at hg
                obtain rfl := Option.some.injEq _ _ ▸ hg
                cases hacc : dget acc f with
                | none =>
                    rw [hacc] at hm
                    simp at hm
                    obtain ⟨rfl, rfl⟩ := hm
                    exact hfb
                | some old =>
                    rw [hacc] at hm
                    simp only [Option.getD_some, List.mem_append] at hm
                    rcases hm with hm | hm
                    · exact h f old u s hacc hm
                    · simp at hm
                      obtain ⟨rfl, rfl⟩ := hm
                      exact hfb
              · rw [if_neg hf] at hg
                exact h f vs u s hg hm


theorem appears_to_candidate {catalog : Catalog} {df : DataFrame} {f u : String}
    {e : MapEntry} (hg : dget (auto_map_columns catalog df) f = some e)
    (ha : u = e.user_column ∨ u ∈ e.alternatives.getD []) :
    ∃ s vs, dget (collectCandidates catalog df.cols []) f = some vs ∧ (u, s) ∈ vs := by
  unfold auto_map_columns at hg
  rw [dget_map_entry] at hg
  cases hvs : dget (collectCandidates catalog df.cols []) f with
  | none => rw [hvs] at hg; cases hg
  | some vs =>
      rw [hvs] at hg
      simp at hg
      have hne : vs ≠ [] := by
        have hmem := mem_of_dget hvs
        exact collect_values_ne_nil catalog df.cols [] (by simp) _ hmem
      subst hg
      rcases vs with _ | ⟨c1, _ | ⟨c2, restC⟩⟩
      · exact absurd rfl hne
      · obtain ⟨u1, s1⟩ := c1
        simp only [resolveAuto] at ha
        rcases ha with rfl | ha
        · exact ⟨s1, _, rfl, List.mem_cons_self _ _⟩
        · simp at ha
      · rcases hs : sortDesc (fun v => ⟨(v.2 : ℤ), 1⟩) (c1 :: c2 :: restC) with _ | ⟨b, others⟩
        · have := (sortDesc_perm (fun v : String × ℕ => (⟨(v.2 : ℤ), 1⟩ : Frac))
            (c1 :: c2 :: restC)).length_eq
          rw [hs] at this
          simp at this
        · simp only [resolveAuto, hs] at ha
          have hperm := sortDesc_perm (fun v : String × ℕ => (⟨(v.2 : ℤ), 1⟩ : Frac))
            (c1 :: c2 :: restC)
          rw [hs] at hperm
          rcases ha with rfl | ha
          · exact ⟨b.2, _, rfl, hperm.mem_iff.mp (List.mem_cons_self _ _)⟩
          · simp only [Option.getD_some] at ha
            obtain ⟨c, hc, rfl⟩ := List.mem_map.mp ha
            exact ⟨c.2, _, rfl,
              hperm.mem_iff.mp (List.mem_cons_of_mem _ hc)⟩


theorem fbm_inner_snd (u f : String) (names : List String) :
    ∀ st : Option String × ℕ,
      (names.foldl (fun st al =>
        if st.2 < calculate_similarity u al then (some f, calculate_similarity u al) else st) st).2
      = names.foldl (fun a al => max a (calculate_similarity u al)) st.2 := by
  induction names with
  | nil => intro st; rfl
  | cons al rest ih =>
      intro st
      simp only [List.foldl_cons]
      by_cases h : st.2 < calculate_similarity u al
      · rw [if_pos h, ih]
        congr 1
        omega
      · rw [if_neg h, ih]
        congr 1
        omega

theorem fbm_inner_cases (u f : String) (names : List String) :
    ∀ st : Option String × ℕ,
      (names.foldl (fun st al =>
        if st.2 < calculate_similarity u al then (some f, calculate_similarity u al) else st) st) = st
      ∨ ∃ al ∈ names,
        (names.foldl (fun st al =>
          if st.2 < calculate_similarity u al then (some f, calculate_similarity u al) else st) st)
        = (some f, calculate_similarity u al) := by
  induction names with
  | nil => intro st; left; rfl
  | cons al rest ih =>
      intro st
      simp only [List.foldl_cons]
      by_cases h : st.2 < calculate_similarity u al
      · rw [if_pos h]
        rcases ih (some f, calculate_similarity u al) with heq | ⟨al', hmem, heq⟩
        · right; exact ⟨al, List.mem_cons_self _ _, heq⟩
        · right; exact ⟨al', List.mem_cons_of_mem _ hmem, heq⟩
      · rw [if_neg h]
        rcases ih st with heq | ⟨al', hmem, heq⟩
        · left; exact heq
        · right; exact ⟨al', List.mem_cons_of_mem _ hmem, heq⟩

theorem fbm_outer_snd (u : String) (catalog : Catalog) :
    ∀ st : Option String × ℕ,
      (catalog.foldl (fun st p => p.2.names.foldl (fun st al =>
        if st.2 < calculate_similarity u al then (some p.1, calculate_similarity u al) else st) st) st).2
      = catalog.foldl (fun acc p => p.2.names.foldl
          (fun a al => max a (calculate_similarity u al)) acc) st.2 := by
  induction catalog with
  | nil => intro st; rfl
  | cons p rest ih =>
      intro st
      simp only [List.foldl_cons]
      rw [ih, fbm_inner_snd]

theorem fbm_outer_cases (u : String) (catalog : Catalog) :
    ∀ st : Option String × ℕ,
      (catalog.foldl (fun st p => p.2.names.foldl (fun st al =>
        if st.2 < calculate_similarity u al then (some p.1, calculate_similarity u al) else st) st) st) = st
      ∨ ∃ f cfg al, (f, cfg) ∈ catalog ∧ al ∈ cfg.names ∧
        (catalog.foldl (fun st p => p.2.names.foldl (fun st al =>
          if st.2 < calculate_similarity u al then (some p.1, calculate_similarity u al) else st) st) st)
        = (some f, calculate_similarity u al) := by
  induction catalog with
  | nil => intro st; left; rfl
  | cons p rest ih =>
      intro st
      simp only [List.foldl_cons]
      rcases ih (p.2.names.foldl (fun st al =>
          if st.2 < calculate_similarity u al then (some p.1, calculate_similarity u al) else st) st) with
        heq | ⟨f, cfg, al, hm, ha, heq⟩
      · rw [heq]
        rcases fbm_inner_cases u p.1 p.2.names st with heq2 | ⟨al, hmem, heq2⟩
        · left; exact heq2
        · right
          exact ⟨p.1, p.2, al, List.mem_cons_self _ _, hmem, heq2⟩
      · right
        exact ⟨f, cfg, al, List.mem_cons_of_mem _ hm, ha, heq⟩


theorem dset_append {α : Type} (acc : List (String × α)) (k : String) (v : α)
    (h : k ∉ acc.map Prod.fst) : dset acc k v = acc ++ [(k, v)] := by
  induction acc with
  | nil => rfl
  | cons p rest ih =>
      simp only [List.map_cons, List.mem_cons] at h
      push_neg at h
      have hne : ¬ k = p.1 := h.1
      simp [dset, hne, ih h.2]

theorem rename_fold_eq_map (mapping : Mapping) :
    ∀ acc : List (String × String),
      (∀ p ∈ mapping, p.2.user_column ∉ acc.map Prod.fst) →
      (mapping.map (fun p => p.2.user_column)).Nodup →
      mapping.foldl (fun d p => dset d p.2.user_column p.1) acc
        = acc ++ mapping.map (fun p => (p.2.user_column, p.1)) := by
  induction mapping with
  | nil => intro acc _ _; simp
  | cons p rest ih =>
      intro acc hnotin hnd
      simp only [List.foldl_cons]
      rw [dset_append acc _ _ (hnotin p (List.mem_cons_self _ _))]
      rw [List.map_cons, List.nodup_cons] at hnd
      obtain ⟨hp, hnd'⟩ := hnd
      rw [ih (acc ++ [(p.2.user_column, p.1)]) ?_ hnd']
      · simp
      · intro q hq
        simp only [List.map_append, List.mem_append, List.map_cons, List.map_nil,
          List.mem_singleton]
        push_neg
        refine ⟨hnotin q (List.mem_cons_of_mem _ hq), ?_⟩
        intro hequ
        exact hp (hequ ▸ List.mem_map.mpr ⟨q, hq, rfl⟩)

theorem find_rename (mapping : Mapping) (p : String × MapEntry)
    (hmem : p ∈ mapping) (hnd : (mapping.map Prod.fst).Nodup) :
    (mapping.map (fun q => (q.2.user_column, q.1))).find? (fun pr => pr.2 == p.1)
      = some (p.2.user_column, p.1) := by
  induction mapping with
  | nil => cases hmem
  | cons q rest ih =>
      rw [List.map_cons, List.nodup_cons] at hnd
      obtain ⟨hq, hnd'⟩ := hnd
      rcases List.mem_cons.mp hmem with rfl | hmem'
      · simp [List.find?_cons]
      · have hne : ¬ (q.1 == p.1) = true := by
          simp only [beq_iff_eq]
          intro h
          exact hq (h ▸ List.mem_map.mpr ⟨p, hmem', rfl⟩)
        rw [List.map_cons, List.find?_cons]
        simp only [hne]
        exact ih hmem' hnd'


theorem infer_has_keys (df : DataFrame) (col : String) (p : Profile) :
    (dget (infer_column_type df col p) "numeric").isSome = true ∧
    (dget (infer_column_type df col p) "rating").isSome = true ∧
    (dget (infer_column_type df col p) "id").isSome = true ∧
    (dget (infer_column_type df col p) "date").isSome = true := by
  unfold infer_column_type
  by_cases hn : p.is_numeric = true
  · simp only [hn, if_true]
    refine ⟨?_, ?_, ?_, ?_⟩ <;> simp [dget_dset]
  · have hn' : (p.is_numeric = true) = False := by simp [hn]
    simp only [hn', if_false]
    rcases ha : p.avg_length with _ | L
    · rcases hc : nonNullCells (df.data col) with _ | ⟨c, cs⟩ <;>
        · refine ⟨?_, ?_, ?_, ?_⟩ <;> simp [dget_dset]
    · refine ⟨?_, ?_, ?_, ?_⟩ <;> simp [dget_dset]

theorem allnull_iff (c : Column) :
    (c.cells.all (fun o => o.isNone) = true) ↔ nonNullCells c = [] := by
  unfold nonNullCells
  rw [List.all_eq_true, List.filterMap_eq_nil_iff]
  constructor
  · intro h o ho
    have := h o ho
    simpa [Option.isNone_iff_eq_none] using this
  · intro h o ho
    have := h o ho
    simpa [Option.isNone_iff_eq_none] using this

theorem id_step_preserves (r : Profile) :
    (analyze_id_step r).numeric_range = r.numeric_range ∧
    (analyze_id_step r).avg_length = r.avg_length ∧
    (analyze_id_step r).is_date = r.is_date := by
  unfold analyze_id_step
  split <;> exact ⟨rfl, rfl, rfl⟩


/-! ### The claims -/

/-- C1 (code_bug): the claim — and the source's own docstring, inline
comment and tests — say a date-detected profile scores date = 90 and
id = 30 (when also id-like), with date strictly above id.  The code's
non-numeric branch runs after the date branch and overwrites the dict:
on the ten-distinct-date column the final scores are date = 0 and
id = 80, so id outranks date. -/
theorem c1_date_priority_bug :
    analyze_column_data order_date_df "OrderDate" = .ok order_date_profile ∧
    order_date_profile.is_date = true ∧
    order_date_profile.is_id = true ∧
    dget (infer_column_type order_date_df "OrderDate" order_date_profile) "date"
      = some 0 ∧
    dget (infer_column_type order_date_df "OrderDate" order_date_profile) "id"
      = some 80 :=
  ⟨by decide, rfl, rfl, by decide, by decide⟩

/-- C2 (corrected, counterexample): on a dataframe whose single numeric
column is named `amount` — an alias of both `quantity` and `unitprice` —
the hybrid resolver selects that same column as the winner of two
different standard fields, refuting the claimed no-double-assignment
invariant. -/
theorem c2_counterexample_double_assign :
    (dget (hybrid_map_columns ECOMMERCE_COLUMNS amount_df) "quantity").map
        (fun e => e.user_column) = some "amount" ∧
    (dget (hybrid_map_columns ECOMMERCE_COLUMNS amount_df) "unitprice").map
        (fun e => e.user_column) = some "amount" ∧
    "quantity" ≠ "unitprice" :=
  ⟨by decide, by decide, by decide⟩

/-- C2 (corrected, amended): the hybrid resolver resolves conflicts only
per standard field — each standard field occurs at most once in the
mapping (keys stay distinct), but the same user column may win several
fields. -/
theorem c2_per_field_uniqueness (catalog : Catalog) (df : DataFrame)
    (w1 w2 : Frac) (hnd : (catalog.map Prod.fst).Nodup) :
    ((hybrid_map_columns catalog df w1 w2).map Prod.fst).Nodup :=
  List.Nodup.sublist (hybrid_keys_sublist catalog df w1 w2) hnd

theorem c2_per_field_uniqueness_witness :
    (ECOMMERCE_COLUMNS.map Prod.fst).Nodup ∧
    ((hybrid_map_columns ECOMMERCE_COLUMNS amount_df ⟨6, 10⟩ ⟨4, 10⟩).map
      Prod.fst).Nodup :=
  ⟨by decide, c2_per_field_uniqueness ECOMMERCE_COLUMNS amount_df ⟨6, 10⟩ ⟨4, 10⟩
    (by decide)⟩

/-- C3 (corrected, counterexample): on a non-numeric, non-date, fully
unique profile the claim predicts id = 70; the code assigns
`SCORE_MEDIUM_HIGH = 80` (and, in the numeric branch, `SCORE_HIGH = 90`
rather than the claimed 80). -/
theorem c3_counterexample_nonnumeric_id_score :
    dget (infer_column_type empty_df "code" c3_profile) "id" = some 80 ∧
    ¬ dget (infer_column_type empty_df "code" c3_profile) "id" = some 70 :=
  ⟨by decide, by decide⟩

/-- C3 (corrected, amended): for a profile with `is_date = false` the
scorer returns exactly: when numeric — numeric = 80, rating = 70 iff the
numeric range lies within [0, 10] else 0, id = 90 when `is_id` else
`⌊unique_ratio * 50⌋`, text = 0, date = 0; when non-numeric — numeric =
rating = 0, id = 80 when `is_id` else `⌊unique_ratio * 30⌋`, text tiered
80/60/30 on the average length, date = 0.  (The claim said 80 and 70 for
the two `is_id` cases; the code uses 90 and 80.) -/

theorem c3_type_scorer_scores (df : DataFrame) (col : String) (p : Profile)
    (hd : p.is_date = false) (h0 : Frac.le 0 p.unique_ratio) :
    (p.is_numeric = true →
      dget (infer_column_type df col p) "numeric" = some 80 ∧
      (∀ mn mx me, p.numeric_range = some (mn, mx, me) →
        dget (infer_column_type df col p) "rating"
          = some (if 0 ≤ mn.toRat ∧ mx.toRat ≤ 10 then 70 else 0)) ∧
      (p.numeric_range = none → dget (infer_column_type df col p) "rating" = some 0) ∧
      dget (infer_column_type df col p) "id"
        = some (if p.is_id = true then 90 else ⌊p.unique_ratio.toRat * 50⌋) ∧
      dget (infer_column_type df col p) "text" = some 0 ∧
      dget (infer_column_type df col p) "date" = some 0) ∧
    (p.is_numeric = false →
      dget (infer_column_type df col p) "numeric" = some 0 ∧
      dget (infer_column_type df col p) "rating" = some 0 ∧
      dget (infer_column_type df col p) "id"
        = some (if p.is_id = true then 80 else ⌊p.unique_ratio.toRat * 30⌋) ∧
      (∀ L, p.avg_length = some L →
        dget (infer_column_type df col p) "text"
          = some (if 50 ≤ L.toRat then 80 else if 20 ≤ L.toRat then 60 else 30)) ∧
      dget (infer_column_type df col p) "date" = some 0) := by
  constructor
  · intro hn
    unfold infer_column_type
    rw [hd, hn]
    simp only [Bool.false_eq_true, if_false, if_true]
    refine ⟨?_, ?_, ?_, ?_, ?_, ?_⟩
    · simp [dget_dset]
    · intro mn mx me hr
      rw [hr]
      simp only [dget_dset, String.reduceEq, reduceIte]
      congr 1
      have h1 : (Frac.le 0 mn ∧ Frac.le mx 10) ↔ (0 ≤ mn.toRat ∧ mx.toRat ≤ 10) := by
        rw [Frac.natCast_le_iff, Frac.le_natCast_iff]
        norm_num
      rw [if_congr h1 rfl rfl]
    · intro hr
      rw [hr]
      simp [dget_dset]
    · by_cases hid : p.is_id = true
      · simp [dget_dset, hid]
      · simp only [dget_dset, String.reduceEq, reduceIte, hid, if_false]
        rw [Frac.toIntTrunc_mul_nat _ 50 h0]
        norm_num
    · simp [dget_dset]
    · simp [dget_dset]
  · intro hn
    unfold infer_column_type
    rw [hd, hn]
    simp only [Bool.false_eq_true, if_false]
    rcases ha : p.avg_length with _ | L
    all_goals refine ⟨?_, ?_, ?_, ?_, ?_⟩
    · rcases hc : nonNullCells (df.data col) with _ | ⟨c, cs⟩ <;> simp [dget_dset]
    · rcases hc : nonNullCells (df.data col) with _ | ⟨c, cs⟩ <;> simp [dget_dset]
    · rcases hc : nonNullCells (df.data col) with _ | ⟨c, cs⟩ <;>
        · by_cases hid : p.is_id = true
          · simp [dget_dset, hid]
          · simp only [dget_dset, String.reduceEq, reduceIte, hid, if_false]
            rw [Frac.toIntTrunc_mul_nat _ 30 h0]
            norm_num
    · intro L hL
      cases hL
    · rcases hc : nonNullCells (df.data col) with _ | ⟨c, cs⟩ <;> simp [dget_dset]
    · simp [dget_dset]
    · simp [dget_dset]
    · by_cases hid : p.is_id = true
      · simp [dget_dset, hid]
      · simp only [dget_dset, String.reduceEq, reduceIte, hid, if_false]
        rw [Frac.toIntTrunc_mul_nat _ 30 h0]
        norm_num
    · intro L0 hL
      obtain rfl := Option.some.injEq _ _ ▸ hL
      simp only [dget_dset, String.reduceEq, reduceIte]
      congr 1
      have h50 : Frac.le 50 L ↔ (50 : ℚ) ≤ L.toRat := by
        rw [Frac.natCast_le_iff]
        norm_num
      have h20 : Frac.le 20 L ↔ (20 : ℚ) ≤ L.toRat := by
        rw [Frac.natCast_le_iff]
        norm_num
      rw [if_congr h50 rfl (if_congr h20 rfl rfl)]
    · simp [dget_dset]

theorem c3_type_scorer_scores_witness :
    c3_profile.is_date = false ∧ Frac.le 0 c3_profile.unique_ratio ∧
    c3_profile.is_numeric = false ∧
    dget (infer_column_type empty_df "code" c3_profile) "numeric" = some 0 :=
  ⟨by decide, by decide, by decide,
    (((c3_type_scorer_scores empty_df "code" c3_profile (by decide) (by decide)).2)
      (by decide)).1⟩

/-- C4 (confirmed): for a standard field with two or more candidates
above the 50-point threshold, the hybrid resolver's entry selects a
candidate of maximum combined score, lists every other candidate's name
in `alternatives` in descending combined-score order (none dropped), and
every alternative's combined score is at most the selected entry's
`confidence`. -/

theorem c4_conflict_resolution (catalog : Catalog) (df : DataFrame) (std : String)
    (cfg : FieldConfig) (hmem : (std, cfg) ∈ catalog)
    (hnd : (catalog.map Prod.fst).Nodup)
    (hlen : 2 ≤ (candidates_for df cfg ⟨6, 10⟩ ⟨4, 10⟩).length) :
    ∃ e best rest,
      dget (hybrid_map_columns catalog df) std = some e ∧
      (best :: rest).Perm (candidates_for df cfg ⟨6, 10⟩ ⟨4, 10⟩) ∧
      (best :: rest).Pairwise (fun a b => Frac.le b.2.1 a.2.1) ∧
      e.user_column = best.1 ∧
      (∀ c ∈ candidates_for df cfg ⟨6, 10⟩ ⟨4, 10⟩, Frac.le c.2.1 best.2.1) ∧
      e.alternatives = some (rest.map (fun c => c.1)) ∧
      (∀ c ∈ rest, Frac.le c.2.1 e.confidence) := by
  rw [dget_hybrid df _ _ hmem hnd]
  rcases hc : candidates_for df cfg ⟨6, 10⟩ ⟨4, 10⟩ with _ | ⟨c1, _ | ⟨c2, restC⟩⟩
  · rw [hc] at hlen; simp at hlen
  · rw [hc] at hlen; simp at hlen
  · rcases hs : sortDesc (fun x : Cand => x.2.1) (c1 :: c2 :: restC) with _ | ⟨b, others⟩
    · have := (sortDesc_perm (fun x : Cand => x.2.1) (c1 :: c2 :: restC)).length_eq
      rw [hs] at this
      simp at this
    · refine ⟨⟨b.1, Frac.round1 b.2.1, "hybrid", some b.2.2.1, some b.2.2.2,
          some (others.map (fun x => x.1))⟩, b, others, ?_, ?_, ?_, rfl, ?_, rfl, ?_⟩
      · simp [resolveHybrid, hs]
      · rw [← hs]; exact sortDesc_perm _ _
      · rw [← hs]; exact sortDesc_pairwise _ _
      · exact sortDesc_head_max _ _ hs
      · intro c hcmem
        have hble : Frac.le c.2.1 b.2.1 := by
          have hp := sortDesc_pairwise (fun x : Cand => x.2.1) (c1 :: c2 :: restC)
          rw [hs, List.pairwise_cons] at hp
          exact hp.1 c hcmem
        have hbmem : b ∈ candidates_for df cfg ⟨6, 10⟩ ⟨4, 10⟩ := by
          rw [hc]
          have hin : b ∈ sortDesc (fun x : Cand => x.2.1) (c1 :: c2 :: restC) := by
            rw [hs]; exact List.mem_cons_self _ _
          exact (sortDesc_perm _ _).mem_iff.mp hin
        obtain ⟨hshape, _⟩ := mem_candidates_for hbmem
        have hconf : (Frac.round1 b.2.1).toRat = b.2.1.toRat := by
          rw [hshape]
          exact Frac.round1_combine _ _
        rw [Frac.le_iff_toRat]
        show c.2.1.toRat ≤ (Frac.round1 b.2.1).toRat
        rw [hconf]
        exact (Frac.le_iff_toRat _ _).mp hble

theorem c4_conflict_resolution_witness :
    ("unitprice", cfg_unitprice) ∈ ECOMMERCE_COLUMNS ∧
    (ECOMMERCE_COLUMNS.map Prod.fst).Nodup ∧
    2 ≤ (candidates_for price_df cfg_unitprice ⟨6, 10⟩ ⟨4, 10⟩).length ∧
    (∃ e best rest,
      dget (hybrid_map_columns ECOMMERCE_COLUMNS price_df) "unitprice" = some e ∧
      (best :: rest).Perm (candidates_for price_df cfg_unitprice ⟨6, 10⟩ ⟨4, 10⟩) ∧
      (best :: rest).Pairwise (fun a b => Frac.le b.2.1 a.2.1) ∧
      e.user_column = best.1 ∧
      (∀ c ∈ candidates_for price_df cfg_unitprice ⟨6, 10⟩ ⟨4, 10⟩,
        Frac.le c.2.1 best.2.1) ∧
      e.alternatives = some (rest.map (fun c => c.1)) ∧
      (∀ c ∈ rest, Frac.le c.2.1 e.confidence)) :=
  ⟨by decide, by decide, by decide,
    c4_conflict_resolution ECOMMERCE_COLUMNS price_df "unitprice" cfg_unitprice
      (by decide) (by decide) (by decide)⟩

/-- C5 (confirmed): `validate_mapping` is a total function returning a
structured result — `(true, [])` when every required field of the
catalog is mapped, and `(false, msgs)` with a message naming each
unmapped required field otherwise (no exception is raised; the embedding
is a total function). -/

theorem c5_validate_mapping (catalog : Catalog) (mapping : Mapping) :
    ((∀ p ∈ catalog, p.2.required = true → p.1 ∈ mapping.map Prod.fst) →
      validate_mapping catalog mapping = (true, [])) ∧
    (∀ f cfg, (f, cfg) ∈ catalog → cfg.required = true → f ∉ mapping.map Prod.fst →
      (validate_mapping catalog mapping).1 = false ∧
      missing_message f ∈ (validate_mapping catalog mapping).2) := by
  constructor
  · intro h
    unfold validate_mapping
    have hnil : get_missing_columns catalog mapping = [] := by
      unfold get_missing_columns
      rw [List.filterMap_eq_nil_iff]
      intro p hp
      by_cases hreq : p.2.required = true
      · have hinmem : p.1 ∈ mapping.map Prod.fst := h p hp hreq
        have hcond : ¬ (p.2.required = true ∧ ¬ p.1 ∈ mapping.map Prod.fst) := by
          intro hc
          exact hc.2 hinmem
        rw [if_neg hcond]
      · have hcond : ¬ (p.2.required = true ∧ ¬ p.1 ∈ mapping.map Prod.fst) := by
          intro hc
          exact hreq hc.1
        rw [if_neg hcond]
    rw [hnil]
  · intro f cfg hm hr hnot
    have hmem : f ∈ get_missing_columns catalog mapping := by
      unfold get_missing_columns
      apply List.mem_filterMap.mpr
      exact ⟨(f, cfg), hm, by simp [hr, hnot]⟩
    cases hg : get_missing_columns catalog mapping with
    | nil => rw [hg] at hmem; cases hmem
    | cons m ms =>
        rw [hg] at hmem
        have hval : validate_mapping catalog mapping = (false, (m :: ms).map missing_message) := by
          unfold validate_mapping
          rw [hg]
        rw [hval]
        exact ⟨rfl, List.mem_map.mpr ⟨f, hmem, rfl⟩⟩

theorem c5_validate_mapping_witness :
    ("customerid", cfg_customerid) ∈ ECOMMERCE_COLUMNS ∧
    cfg_customerid.required = true ∧
    "customerid" ∉ (([] : Mapping).map Prod.fst) ∧
    ((validate_mapping ECOMMERCE_COLUMNS []).1 = false ∧
      missing_message "customerid" ∈ (validate_mapping ECOMMERCE_COLUMNS []).2) :=
  ⟨by decide, by decide, by decide,
    (c5_validate_mapping ECOMMERCE_COLUMNS []).2 "customerid" cfg_customerid
      (by decide) (by decide) (by decide)⟩

/-- C6 (confirmed): `find_best_match` returns a standard field owning an
alias that attains the highest similarity across the whole catalog,
paired with that score, whenever the best score reaches the threshold
50; below the threshold it returns `(none, 0)`. -/

theorem c6_find_best_match (catalog : Catalog) (u : String) :
    (50 ≤ highest_alias_score catalog u →
      ∃ f cfg al, (f, cfg) ∈ catalog ∧ al ∈ cfg.names ∧
        calculate_similarity u al = highest_alias_score catalog u ∧
        find_best_match catalog u = (some f, highest_alias_score catalog u)) ∧
    (highest_alias_score catalog u < 50 →
      find_best_match catalog u = (none, 0)) := by
  have hsnd : (catalog.foldl (fun st p => p.2.names.foldl (fun st al =>
      if st.2 < calculate_similarity u al then (some p.1, calculate_similarity u al) else st) st)
      ((none, 0) : Option String × ℕ)).2 = highest_alias_score catalog u := by
    have h := fbm_outer_snd u catalog (none, 0)
    unfold highest_alias_score
    exact h
  constructor
  · intro h50
    rcases fbm_outer_cases u catalog (none, 0) with heq | ⟨f, cfg, al, hm, ha, heq⟩
    · exfalso
      rw [heq] at hsnd
      simp at hsnd
      omega
    · have hv : calculate_similarity u al = highest_alias_score catalog u := by
        rw [← hsnd, heq]
      refine ⟨f, cfg, al, hm, ha, hv, ?_⟩
      unfold find_best_match
      simp only [heq, hv]
      simp [h50]
  · intro h50
    unfold find_best_match
    rcases fbm_outer_cases u catalog (none, 0) with heq | ⟨f, cfg, al, hm, ha, heq⟩
    · simp only [heq]
      simp
    · simp only [heq]
      rw [heq] at hsnd
      simp at hsnd
      rw [← hsnd] at h50
      simp [Nat.not_le.mpr h50]

theorem c6_find_best_match_witness :
    50 ≤ highest_alias_score ECOMMERCE_COLUMNS "Customer ID" ∧
    (∃ f cfg al, (f, cfg) ∈ ECOMMERCE_COLUMNS ∧ al ∈ cfg.names ∧
      calculate_similarity "Customer ID" al
        = highest_alias_score ECOMMERCE_COLUMNS "Customer ID" ∧
      find_best_match ECOMMERCE_COLUMNS "Customer ID"
        = (some f, highest_alias_score ECOMMERCE_COLUMNS "Customer ID")) :=
  ⟨by decide, (c6_find_best_match ECOMMERCE_COLUMNS "Customer ID").1 (by decide)⟩

/-- C7 (corrected, counterexample): a mapping whose two fields select
the same user column — all selected columns do occur in the dataframe —
yields an output whose column set is `["f2"]`, not the claimed set of
all standard field names (`rename_dict` keeps one entry per user
column). -/
theorem c7_counterexample_duplicate_user_column :
    (∀ p ∈ c7_dup_mapping, p.2.user_column ∈ c7_df.cols) ∧
    (apply_mapping c7_df c7_dup_mapping).cols = ["f2"] ∧
    "f1" ∉ (apply_mapping c7_df c7_dup_mapping).cols :=
  ⟨by decide, by decide, by decide⟩

/-- C7 (corrected, amended): for a mapping with distinct standard fields
and pairwise distinct selected user columns, all present in the
dataframe, `apply_mapping` returns a new dataframe whose columns are
exactly the mapping's standard field names, whose row count equals the
input's, and whose column values are the selected source columns
unchanged.  The embedding is pure, so the source dataframe is not
mutated by construction. -/

theorem c7_apply_mapping (df : DataFrame) (mapping : Mapping)
    (hkeys : (mapping.map Prod.fst).Nodup)
    (husers : (mapping.map (fun p => p.2.user_column)).Nodup)
    (hin : ∀ p ∈ mapping, p.2.user_column ∈ df.cols) :
    (apply_mapping df mapping).cols = mapping.map Prod.fst ∧
    (apply_mapping df mapping).nrows = df.nrows ∧
    (∀ p ∈ mapping, (apply_mapping df mapping).data p.1 = df.data p.2.user_column) := by
  have hren := rename_fold_eq_map mapping [] (by simp) husers
  refine ⟨?_, rfl, ?_⟩
  · show (mapping.foldl (fun d p => dset d p.2.user_column p.1) []).map (fun p => p.2)
      = mapping.map Prod.fst
    rw [hren]
    simp only [List.nil_append, List.map_map]
    rfl
  · intro p hp
    show (match (mapping.foldl (fun d p => dset d p.2.user_column p.1) []).find?
        (fun pr => pr.2 == p.1) with
      | some pr => df.data pr.1
      | none => { dtype := "object", cells := [] }) = df.data p.2.user_column
    rw [hren]
    simp only [List.nil_append]
    rw [find_rename mapping p hp hkeys]

theorem c7_apply_mapping_witness :
    (c7_good_mapping.map Prod.fst).Nodup ∧
    (c7_good_mapping.map (fun p => p.2.user_column)).Nodup ∧
    (∀ p ∈ c7_good_mapping, p.2.user_column ∈ c7_df.cols) ∧
    ((apply_mapping c7_df c7_good_mapping).cols = c7_good_mapping.map Prod.fst ∧
      (apply_mapping c7_df c7_good_mapping).nrows = c7_df.nrows ∧
      (∀ p ∈ c7_good_mapping,
        (apply_mapping c7_df c7_good_mapping).data p.1 = c7_df.data p.2.user_column)) :=
  ⟨by decide, by decide, by decide,
    c7_apply_mapping c7_df c7_good_mapping (by decide) (by decide) (by decide)⟩

/-- C8 (confirmed): constructing a mapper for each of the three valid
domain names binds that domain's catalog, and any other domain string
fails fast with an error message enumerating exactly the valid names —
there is no silent default. -/

theorem c8_init_domains :
    column_mapper_init "ecommerce" = .ok ECOMMERCE_COLUMNS ∧
    column_mapper_init "review" = .ok REVIEW_COLUMNS ∧
    column_mapper_init "sales" = .ok SALES_COLUMNS ∧
    (∀ t, t ∉ AVAILABLE_DATA_TYPES →
      column_mapper_init t = .error
        ("Unknown data type: \x27" ++ t ++ "\x27. Available types: ecommerce, review, sales")) := by
  refine ⟨rfl, rfl, rfl, ?_⟩
  intro t ht
  simp only [AVAILABLE_DATA_TYPES, List.mem_cons, List.not_mem_nil, or_false] at ht
  push_neg at ht
  unfold column_mapper_init
  rw [if_neg ht.1, if_neg ht.2.1, if_neg ht.2.2]
  congr 1
  rw [String.append_assoc]
  congr 1

theorem c8_init_domains_witness :
    "postgres" ∉ AVAILABLE_DATA_TYPES ∧
    column_mapper_init "postgres" = .error
      ("Unknown data type: \x27" ++ "postgres"
        ++ "\x27. Available types: ecommerce, review, sales") :=
  ⟨by decide, c8_init_domains.2.2.2 "postgres" (by decide)⟩

/-- C9 (confirmed): for every non-empty well-formed column — including
all-null columns, which are exactly the columns empty after dropping
nulls — the profiler returns a profile (never the fault branch), with
`numeric_range`, `avg_length` and `is_date` at their defaults in the
all-null case, and the scorer applied to that profile returns a dict
defining the numeric/rating/id/date scores. -/

theorem c9_profiler_total (df : DataFrame) (col : String)
    (hne : (df.data col).cells ≠ [])
    (hwf : well_formed_col (df.data col)) :
    ∃ p, analyze_column_data df col = .ok p ∧
      ((df.data col).cells.all (fun o => o.isNone) = true →
        p.numeric_range = none ∧ p.avg_length = none ∧ p.is_date = false) ∧
      (dget (infer_column_type df col p) "numeric").isSome = true ∧
      (dget (infer_column_type df col p) "rating").isSome = true ∧
      (dget (infer_column_type df col p) "id").isSome = true ∧
      (dget (infer_column_type df col p) "date").isSome = true := by
  by_cases hnum : is_numeric_dtype (df.data col).dtype = true
  · by_cases hemp : (nonNullCells (df.data col)).isEmpty = true
    · -- numeric dtype, all cells null
      have hstep : analyze_numeric_step (df.data col) (analyze_base df col)
          = .ok { analyze_base df col with is_numeric := true } := by
        unfold analyze_numeric_step
        rw [if_pos hnum, if_pos hemp]
      refine ⟨analyze_id_step (analyze_date_text_step (df.data col)
          { analyze_base df col with is_numeric := true }), ?_, ?_,
          infer_has_keys df col _⟩
      · unfold analyze_column_data
        rw [hstep]
      · intro _
        have hdt : analyze_date_text_step (df.data col)
            { analyze_base df col with is_numeric := true }
            = { analyze_base df col with is_numeric := true } := by
          unfold analyze_date_text_step
          rw [if_pos rfl]
        rw [hdt]
        obtain ⟨h1, h2, h3⟩ :=
          id_step_preserves { analyze_base df col with is_numeric := true }
        exact ⟨h1, h2, h3⟩
    · -- numeric dtype with at least one non-null (hence numeric) value
      have hnonnil : nonNullCells (df.data col) ≠ [] := by
        simpa [List.isEmpty_iff] using hemp
      have hnums : numsOf (df.data col) ≠ [] := by
        obtain ⟨v, hv⟩ := List.exists_mem_of_ne_nil _ hnonnil
        obtain ⟨o, ho, hov⟩ := List.mem_filterMap.mp hv
        have hov' : o = some v := by
          cases o with
          | none => cases hov
          | some w => simpa using hov
        subst hov'
        have hok := hwf hnum (some v) ho
        cases v with
        | str s => cases hok
        | num q =>
            intro hnil
            have hq : q ∈ numsOf (df.data col) :=
              List.mem_filterMap.mpr ⟨some (.num q), ho, rfl⟩
            rw [hnil] at hq
            cases hq
      rcases hnq : numsOf (df.data col) with _ | ⟨q, qs⟩
      · exact absurd hnq hnums
      · have hstep : ∃ r1, analyze_numeric_step (df.data col) (analyze_base df col)
            = .ok r1 := by
          unfold analyze_numeric_step
          rw [if_pos hnum, if_neg hemp, hnq]
          exact ⟨_, rfl⟩
        obtain ⟨r1, hstep⟩ := hstep
        refine ⟨analyze_id_step (analyze_date_text_step (df.data col) r1), ?_, ?_,
          infer_has_keys df col _⟩
        · unfold analyze_column_data
          rw [hstep]
        · intro hall
          exact absurd ((allnull_iff _).mp hall) hnonnil
  · -- non-numeric dtype
    have hstep : analyze_numeric_step (df.data col) (analyze_base df col)
        = .ok (analyze_base df col) := by
      unfold analyze_numeric_step
      rw [if_neg hnum]
    refine ⟨analyze_id_step (analyze_date_text_step (df.data col) (analyze_base df col)),
      ?_, ?_, infer_has_keys df col _⟩
    · unfold analyze_column_data
      rw [hstep]
    · intro hall
      have hnil : nonNullCells (df.data col) = [] := (allnull_iff _).mp hall
      have hdt : analyze_date_text_step (df.data col) (analyze_base df col)
          = analyze_base df col := by
        unfold analyze_date_text_step
        rw [if_neg (by simp [analyze_base] : ¬ ((analyze_base df col).is_numeric = true))]
        rw [hnil]
        simp
      rw [hdt]
      obtain ⟨h1, h2, h3⟩ := id_step_preserves (analyze_base df col)
      exact ⟨h1, h2, h3⟩

theorem c9_profiler_total_witness :
    (allnull_df.data "x").cells ≠ [] ∧
    well_formed_col (allnull_df.data "x") ∧
    (∃ p, analyze_column_data allnull_df "x" = .ok p ∧
      ((allnull_df.data "x").cells.all (fun o => o.isNone) = true →
        p.numeric_range = none ∧ p.avg_length = none ∧ p.is_date = false) ∧
      (dget (infer_column_type allnull_df "x" p) "numeric").isSome = true ∧
      (dget (infer_column_type allnull_df "x" p) "rating").isSome = true ∧
      (dget (infer_column_type allnull_df "x" p) "id").isSome = true ∧
      (dget (infer_column_type allnull_df "x" p) "date").isSome = true) :=
  ⟨by decide, by decide, c9_profiler_total allnull_df "x" (by decide) (by decide)⟩

/-- C10 (confirmed): in the name-only `auto_map_columns`, a user column
appears (as the selected column or among the alternatives) in the entry
of at most one standard field, because `find_best_match` routes each
user column to a single field before per-field conflict resolution. -/

theorem c10_auto_map_at_most_one_field (catalog : Catalog) (df : DataFrame) (u f1 f2 : String)
    (e1 e2 : MapEntry)
    (h1 : dget (auto_map_columns catalog df) f1 = some e1)
    (ha1 : u = e1.user_column ∨ u ∈ e1.alternatives.getD [])
    (h2 : dget (auto_map_columns catalog df) f2 = some e2)
    (ha2 : u = e2.user_column ∨ u ∈ e2.alternatives.getD []) :
    f1 = f2 := by
  obtain ⟨s1, vs1, hvs1, hm1⟩ := appears_to_candidate h1 ha1
  obtain ⟨s2, vs2, hvs2, hm2⟩ := appears_to_candidate h2 ha2
  have hf1 := collect_inv catalog df.cols [] (by intro f vs u' s h _; cases h)
    f1 vs1 u s1 hvs1 hm1
  have hf2 := collect_inv catalog df.cols [] (by intro f vs u' s h _; cases h)
    f2 vs2 u s2 hvs2 hm2
  rw [hf1] at hf2
  have h := congrArg Prod.fst hf2
  simp at h
  exact h

theorem c10_at_most_one_field_witness :
    dget (auto_map_columns ECOMMERCE_COLUMNS customer_df) "customerid"
      = some c10_entry ∧
    ("Customer_ID" = c10_entry.user_column ∨
      "Customer_ID" ∈ c10_entry.alternatives.getD []) ∧
    "customerid" = "customerid" :=
  ⟨by decide, by decide,
    c10_auto_map_at_most_one_field ECOMMERCE_COLUMNS customer_df "Customer_ID"
      "customerid" "customerid" c10_entry c10_entry
      (by decide) (by decide) (by decide) (by decide)⟩

end AutoInsight

